import Mathlib

/-!
The UAT editor frame (`ui/qt/uat_frame.cpp`)

A shallow embedding of `UatFrame`, the Qt frame that edits a User Accessible
Table: the error-hint selection (`checkForErrorHint`,
`trySetErrorHintFromField`), the selection slot (`viewCurrentChanged`), the
model slots (`modelDataChanged`, `modelRowsRemoved`), the row actions
(`addRecord`, `on_deleteToolButton_clicked`) and `acceptChanges`.

The frame's collaborators are not part of `uat_frame.cpp`.  `QModelIndex` and
the table model's `index` follow Qt; the table model's contents and its
mutating operations, and the view's reaction to a removal, are modelled from
the specification and are marked as such.
-/

namespace Wireshark

/-! ## Qt model indices -/

/-- Qt's `QModelIndex`, reduced to what the frame reads: the row, the column and
whether the index belongs to a model (`m != nullptr`). -/
structure QModelIndex where
  row : Int
  column : Int
  hasModel : Bool
  deriving DecidableEq, Repr

/-- The default-constructed index `QModelIndex()`: row `-1`, column `-1`, no model. -/
def QModelIndex.invalid : QModelIndex := ⟨-1, -1, false⟩

/-- Qt's `QModelIndex::isValid()`: `(r >= 0) && (c >= 0) && (m != nullptr)`. -/
def QModelIndex.isValid (i : QModelIndex) : Bool :=
  decide (0 ≤ i.row) && decide (0 ≤ i.column) && i.hasModel

/-! ## The table model -/

/-- One cell of the table: its value and its optional error annotation. -/
structure Field where
  value : String
  error : Option String
  deriving DecidableEq, Repr

/-- A row is the ordered sequence of its fields. -/
abbrev Row := List Field

/-- Modelled from the spec: the state of `UatModel` (the class is not in
`uat_frame.cpp`).  The table is its rows, each an ordered sequence of fields
holding a value and an optional error annotation.  `fresh` is what a newly
inserted row holds; `insert_ok` and `remove_ok` say whether the model accepts
an insertion or a removal (the spec leaves the criterion open: "fails if model
rejects insert (capacity/validation)"). -/
structure UatModel where
  rows : List Row
  ncols : Nat
  fresh : Row
  insert_ok : Bool
  remove_ok : Bool
  deriving DecidableEq, Repr

namespace UatModel

/-- The model's `rowCount()`. -/
def rowCount (m : UatModel) : Int := (m.rows.length : Int)

/-- The model's `columnCount()`. -/
def columnCount (m : UatModel) : Int := (m.ncols : Int)

/-- Qt's `QAbstractItemModel::hasIndex(row, column)`. -/
def hasIndex (m : UatModel) (row column : Int) : Bool :=
  decide (0 ≤ row) && decide (0 ≤ column) &&
    decide (row < m.rowCount) && decide (column < m.columnCount)

/-- Qt's `QAbstractTableModel::index(row, column)`:
`hasIndex(row, column) ? createIndex(row, column) : QModelIndex()`. -/
def index (m : UatModel) (row column : Int) : QModelIndex :=
  if m.hasIndex row column then ⟨row, column, true⟩ else QModelIndex.invalid

/-- The field stored at `(row, column)`, if there is one. -/
def field (m : UatModel) (row column : Int) : Option Field :=
  if 0 ≤ row ∧ 0 ≤ column then
    (m.rows.get? row.toNat).bind (fun r => r.get? column.toNat)
  else none

/-- Modelled from the spec: the collaborator's `data(row,col) -> value`. -/
def value (m : UatModel) (row column : Int) : Option String :=
  (m.field row column).map Field.value

/-- Modelled from the spec: the collaborator's
`errorAnnotation(row,col) -> optional string`. -/
def errorAnnotation (m : UatModel) (row column : Int) : Option String :=
  (m.field row column).bind Field.error

/-- Modelled from the spec: `UatModel::data(index, Qt::UserRole + 1)`, the error
annotation of the field an index points at; `none` is the null `QVariant`.  An
invalid index carries no annotation. -/
def data (m : UatModel) (index : QModelIndex) : Option String :=
  if index.isValid then m.errorAnnotation index.row index.column else none

/-- Modelled from the spec: `insertRows(at, count) -> bool`.  When the model
accepts, `count` fresh rows are inserted before position `at`; when it rejects,
nothing changes. -/
def insertRows (m : UatModel) (pos count : Int) : Bool × UatModel :=
  if m.insert_ok && decide (0 ≤ pos) && decide (pos ≤ m.rowCount) && decide (0 ≤ count) then
    (true, { m with rows := m.rows.take pos.toNat ++ List.replicate count.toNat m.fresh
                              ++ m.rows.drop pos.toNat })
  else (false, m)

/-- Modelled from the spec: `removeRows(at, count) -> bool`.  When the model
accepts, the `count` rows from position `at` on are removed; when it rejects,
nothing changes. -/
def removeRows (m : UatModel) (pos count : Int) : Bool × UatModel :=
  if m.remove_ok && decide (0 ≤ pos) && decide (0 ≤ count)
      && decide (pos + count ≤ m.rowCount) then
    (true, { m with rows := m.rows.take pos.toNat ++ m.rows.drop (pos + count).toNat })
  else (false, m)

/-- Modelled from the spec: `copyRow(dst, src)` copies all fields of row `src`
into row `dst`; a row number out of range is guarded and nothing is copied. -/
def copyRow (m : UatModel) (dst src : Int) : UatModel :=
  if 0 ≤ src ∧ src < m.rowCount ∧ 0 ≤ dst ∧ dst < m.rowCount then
    match m.rows.get? src.toNat with
    | some r => { m with rows := m.rows.set dst.toNat r }
    | none => m
  else m

/-- Modelled from the spec: an in-place edit of the field at `(row, column)`;
the field's error annotation is recomputed from its new value by `validate`. -/
def setData (validate : Nat → String → Option String) (m : UatModel)
    (row column : Int) (v : String) : UatModel :=
  if 0 ≤ row ∧ 0 ≤ column then
    match m.rows.get? row.toNat with
    | some r =>
      if column.toNat < r.length then
        { m with rows := m.rows.set row.toNat
                           (r.set column.toNat ⟨v, validate column.toNat v⟩) }
      else m
    | none => m
  else m

end UatModel

/-! ## The frame's widgets -/

/-- The widgets of `Ui::UatFrame` the frame's logic touches: the tree view's
current index, the enabled state of the delete and copy buttons, and the text
of the hint label.  `hintLog` records every text written to the hint label, in
order (a `clear()` writes the empty text); it only observes. -/
structure Ui where
  currentIndex : QModelIndex
  deleteToolButton : Bool
  copyToolButton : Bool
  hintLabel : String
  hintLog : List String
  deriving DecidableEq, Repr

/-- The call `ui->hintLabel->setText(t)`. -/
def Ui.setText (ui : Ui) (t : String) : Ui :=
  { ui with hintLabel := t, hintLog := ui.hintLog ++ [t] }

/-- The call `ui->hintLabel->clear()`. -/
def Ui.clear (ui : Ui) : Ui :=
  { ui with hintLabel := "", hintLog := ui.hintLog ++ [""] }

/-- The text `trySetErrorHintFromField` shows for an annotation:
`"<small><i>" + html_escape(text) + "</i></small>"`.  The helper `html_escape`
is not in `uat_frame.cpp` and is a parameter. -/
def hintText (html_escape : String → String) (e : String) : String :=
  "<small><i>" ++ html_escape e ++ "</i></small>"

/-! ## The frame's state -/

/-- The part of `epan_uat` the frame reads: the table's name, whether it has
pending changes, and whether a post-update callback is registered. -/
structure EpanUat where
  name : String
  changed : Bool
  post_update_cb : Bool
  deriving DecidableEq, Repr

/-- What the frame does to the world outside its widgets and its model, in
order: a `report_failure` message, a run of the post-update callback, the
application signal `FilterExpressionsChanged`, a `qDebug` line. -/
inductive Event where
  | report_failure (msg : String)
  | post_update_cb
  | FilterExpressionsChanged
  | qDebug (msg : String)
  deriving DecidableEq, Repr

/-- The members of `UatFrame`: the widgets, `uat_model_` and `uat_` (`none` is
`NULL`), with the events the frame has issued so far. -/
structure UatFrame where
  ui : Ui
  uat_model_ : Option UatModel
  uat_ : Option EpanUat
  events : List Event
  deriving DecidableEq, Repr

/-! ## The error hint -/

namespace UatFrame

/-- `UatFrame::trySetErrorHintFromField`: when the field has an error annotation,
show it and return `true`; otherwise leave the label alone and return `false`. -/
def trySetErrorHintFromField (html_escape : String → String) (m : UatModel) (ui : Ui)
    (index : QModelIndex) : Bool × Ui :=
  match m.data index with
  | some e => (true, ui.setText (hintText html_escape e))
  | none => (false, ui)

/-- The loop `for (int i = 0; i < columnCount(); i++)` of `checkForErrorHint`
over the columns still to visit: stop at the first field of the row that sets
the hint. -/
def checkColumns (html_escape : String → String) (m : UatModel) (row : Int) :
    List Nat → Ui → Bool × Ui
  | [], ui => (false, ui)
  | i :: rest, ui =>
    let r := trySetErrorHintFromField html_escape m ui (m.index row (i : Int))
    if r.1 then (true, r.2) else checkColumns html_escape m row rest r.2

/-- The end of `checkForErrorHint`, reached when nothing in the current row set
the hint: show the previous field's error if it is valid and has one, else
clear the hint. -/
def checkPrevious (html_escape : String → String) (m : UatModel) (ui : Ui)
    (previous : QModelIndex) : Ui :=
  if previous.isValid then
    let r := trySetErrorHintFromField html_escape m ui previous
    if r.1 then r.2 else r.2.clear
  else ui.clear

/-- `UatFrame::checkForErrorHint`.  Each `return` of the source ends a branch here;
the loop visits the columns `0 .. columnCount() - 1`, that is
`List.range m.ncols`. -/
def checkForErrorHint (html_escape : String → String) (m : UatModel) (ui : Ui)
    (current previous : QModelIndex) : Ui :=
  if current.isValid then
    let r1 := trySetErrorHintFromField html_escape m ui current
    if r1.1 then r1.2
    else
      let row := current.row
      let r2 :=
        if row = previous.row then trySetErrorHintFromField html_escape m r1.2 previous
        else (false, r1.2)
      if r2.1 then r2.2
      else
        let r3 := checkColumns html_escape m row (List.range m.ncols) r2.2
        if r3.1 then r3.2
        else checkPrevious html_escape m r3.2 previous
  else checkPrevious html_escape m ui previous

/-- `UatFrame::viewCurrentChanged`. -/
def viewCurrentChanged (html_escape : String → String) (m : UatModel) (ui : Ui)
    (current previous : QModelIndex) : Ui :=
  let ui1 :=
    if current.isValid then { ui with deleteToolButton := true, copyToolButton := true }
    else { ui with deleteToolButton := false, copyToolButton := false }
  checkForErrorHint html_escape m ui1 current previous

/-- `UatFrame::modelDataChanged`. -/
def modelDataChanged (html_escape : String → String) (m : UatModel) (ui : Ui)
    (topLeft : QModelIndex) : Ui :=
  checkForErrorHint html_escape m ui topLeft QModelIndex.invalid

/-- `UatFrame::modelRowsRemoved`. -/
def modelRowsRemoved (html_escape : String → String) (m : UatModel) (ui : Ui) : Ui :=
  checkForErrorHint html_escape m ui ui.currentIndex QModelIndex.invalid

/-! ## The row actions -/

/-- The view's `setCurrentIndex(index)`, as Qt does it: the index becomes the
current one and, when it differs from the one before, the view's
`currentItemChanged(current, previous)` signal runs the slot `setUat` connected
to it, `viewCurrentChanged`. -/
def uatTreeView_setCurrentIndex (html_escape : String → String) (m : UatModel) (ui : Ui)
    (index : QModelIndex) : Ui :=
  let previous := ui.currentIndex
  let ui1 := { ui with currentIndex := index }
  if index = previous then ui1 else viewCurrentChanged html_escape m ui1 index previous

/-- Modelled from the spec: the view's reaction to a removal of rows, "row
removal invalidates a Selection pointing past the new end"; a change of the
current index runs `viewCurrentChanged` as in `uatTreeView_setCurrentIndex`. -/
def uatTreeView_rowsRemoved (html_escape : String → String) (m : UatModel) (ui : Ui) : Ui :=
  if ui.currentIndex.isValid && decide (m.rowCount ≤ ui.currentIndex.row) then
    uatTreeView_setCurrentIndex html_escape m ui QModelIndex.invalid
  else ui

/-- `UatFrame::addRecord`.  The result is `none` when the call dereferences a
null `uat_model_` (a frame whose `uat_` is set without a model; `setUat` never
builds one).  Whatever slot `copyRow` may trigger through `dataChanged` only
recomputes the hint, which the two calls after it recompute again. -/
def addRecord (html_escape : String → String) (s : UatFrame)
    (copy_from_current : Bool) : Option UatFrame :=
  match s.uat_ with
  | none => some s
  | some _ =>
    let current := s.ui.currentIndex
    if copy_from_current && !current.isValid then some s
    else
      match s.uat_model_ with
      | none => none
      | some m =>
        let r := m.insertRows m.rowCount 1
        if !r.1 then
          some { s with uat_model_ := some r.2,
                        events := s.events ++ [Event.qDebug "Failed to add a new record"] }
        else
          let m1 := r.2
          let new_index := m1.index (m1.rowCount - 1) 0
          let m2 := if copy_from_current then m1.copyRow new_index.row current.row else m1
          let ui1 := uatTreeView_setCurrentIndex html_escape m2 s.ui new_index
          let ui2 := modelDataChanged html_escape m2 ui1 new_index
          some { s with ui := ui2, uat_model_ := some m2 }

/-- `UatFrame::on_newToolButton_clicked`: `addRecord()` with the default argument
`copy_from_current = false`. -/
def on_newToolButton_clicked (html_escape : String → String) (s : UatFrame) :
    Option UatFrame :=
  addRecord html_escape s false

/-- `UatFrame::on_copyToolButton_clicked`. -/
def on_copyToolButton_clicked (html_escape : String → String) (s : UatFrame) :
    Option UatFrame :=
  addRecord html_escape s true

/-- `UatFrame::on_deleteToolButton_clicked`.  After a removal the model accepts,
the view settles its current index and the model's `rowsRemoved` signal runs the
slot `setUat` connected to it, `modelRowsRemoved`. -/
def on_deleteToolButton_clicked (html_escape : String → String) (s : UatFrame) : UatFrame :=
  let current := s.ui.currentIndex
  match s.uat_model_ with
  | none => s
  | some m =>
    if current.isValid then
      let r := m.removeRows current.row 1
      if !r.1 then
        { s with uat_model_ := some r.2,
                 events := s.events ++ [Event.qDebug "Failed to remove row"] }
      else
        let ui1 := uatTreeView_rowsRemoved html_escape r.2 s.ui
        let ui2 := modelRowsRemoved html_escape r.2 ui1
        { s with ui := ui2, uat_model_ := some r.2 }
    else s

/-! ## Saving -/

/-- `UatFrame::acceptChanges`.  The persistence call `uat_save(uat_, &err)` is a
parameter: it gives whether the save succeeded, the table after it, and the
error text. -/
def acceptChanges (uat_save : EpanUat → Bool × EpanUat × String) (s : UatFrame) : UatFrame :=
  match s.uat_ with
  | none => s
  | some u =>
    if u.changed then
      let r := uat_save u
      let u1 := r.2.1
      let e1 :=
        if !r.1 then
          [Event.report_failure ("Error while saving " ++ u1.name ++ ": " ++ r.2.2)]
        else []
      let e2 := if u1.post_update_cb then [Event.post_update_cb] else []
      { s with uat_ := some u1,
               events := s.events ++ e1 ++ e2 ++ [Event.FilterExpressionsChanged] }
    else s

/-! ## The priority list of the specification -/

/-- The error annotation of the leftmost of the given columns of `row` that has
one. -/
def firstErrorInRow (m : UatModel) (row : Int) : List Nat → Option String
  | [] => none
  | i :: rest =>
    match m.errorAnnotation row (i : Int) with
    | some e => some e
    | none => firstErrorInRow m row rest

/-- The flat priority list of the specification, first match wins, written from
its words: (1) `current`'s error if `current` is valid and has one; else (2)
`previous`'s error if `previous.row == current.row` and `previous` has one; else
(3) the error of the leftmost column of `current.row` that has one; else (4)
`previous`'s error if `previous` is valid and has one; else (5) no hint. -/
def recomputeErrorHint_spec (m : UatModel) (current previous : QModelIndex) :
    Option String :=
  if current.isValid ∧ (m.data current).isSome then m.data current
  else if previous.row = current.row ∧ (m.data previous).isSome then m.data previous
  else if (firstErrorInRow m current.row (List.range m.ncols)).isSome then
    firstErrorInRow m current.row (List.range m.ncols)
  else if previous.isValid ∧ (m.data previous).isSome then m.data previous
  else none

/-- The label text that shows a chosen hint: the formatted annotation, or the
empty text when there is none. -/
def shownText (html_escape : String → String) : Option String → String
  | some e => hintText html_escape e
  | none => ""

end UatFrame

/-! ## How the code chooses the hint -/

namespace UatFrame

/-- The annotation the column loop of `checkForErrorHint` stops at, if any: the
first `data(index(row, i))` that is not null. -/
def rowHit (m : UatModel) (row : Int) : List Nat → Option String
  | [] => none
  | i :: rest =>
    match m.data (m.index row (i : Int)) with
    | some e => some e
    | none => rowHit m row rest

/-- The annotation `checkForErrorHint` ends up showing, read off its control
flow; `none` when it clears the hint. -/
def hintChoice (m : UatModel) (current previous : QModelIndex) : Option String :=
  if current.isValid then
    match m.data current with
    | some e => some e
    | none =>
      match (if current.row = previous.row then m.data previous else none) with
      | some e => some e
      | none =>
        match rowHit m current.row (List.range m.ncols) with
        | some e => some e
        | none => if previous.isValid then m.data previous else none
  else if previous.isValid then m.data previous else none

/-- What a write of the chosen hint does to the widgets. -/
def Ui.shown (html_escape : String → String) (ui : Ui) : Option String → Ui
  | some e => ui.setText (hintText html_escape e)
  | none => ui.clear

/-! ## Sample tables -/

/-- A table of two rows and three columns: row 0 has an error in column 2 and
row 1 has one in column 1. -/
def sampleModel : UatModel :=
  { rows := [[⟨"a", none⟩, ⟨"b", none⟩, ⟨"c", some "bad c"⟩],
             [⟨"x", none⟩, ⟨"y", some "bad y"⟩, ⟨"z", none⟩]],
    ncols := 3,
    fresh := [⟨"", none⟩, ⟨"", none⟩, ⟨"", none⟩],
    insert_ok := true,
    remove_ok := true }

/-- Widgets with nothing selected, both row actions disabled and a stale hint. -/
def sampleUi : Ui :=
  { currentIndex := QModelIndex.invalid, deleteToolButton := false,
    copyToolButton := false, hintLabel := "stale", hintLog := [] }

/-- A table with pending changes and a post-update callback. -/
def sampleUat : EpanUat := { name := "tbl", changed := true, post_update_cb := true }

/-- A frame on `sampleModel` with nothing selected. -/
def sampleFrame : UatFrame :=
  { ui := sampleUi, uat_model_ := some sampleModel, uat_ := some sampleUat, events := [] }

/-- The frame `sampleFrame` with the field `(1, 1)` selected. -/
def selectedFrame : UatFrame :=
  { sampleFrame with ui := { sampleUi with currentIndex := ⟨1, 1, true⟩ } }

/-- A table of one row that accepts no insertion. -/
def fullModel : UatModel :=
  { rows := [[⟨"a", some "bad a"⟩]], ncols := 1, fresh := [⟨"", none⟩],
    insert_ok := false, remove_ok := true }

/-- A frame on `fullModel` with its only field selected. -/
def fullFrame : UatFrame :=
  { ui := { sampleUi with currentIndex := ⟨0, 0, true⟩ }, uat_model_ := some fullModel,
    uat_ := some sampleUat, events := [] }

/-- A save that fails with the text `disk full` and leaves the table as it is. -/
def failingSave (u : EpanUat) : Bool × EpanUat × String := (false, u, "disk full")

/-- A save that succeeds and clears the pending-changes flag. -/
def workingSave (u : EpanUat) : Bool × EpanUat × String :=
  (true, { u with changed := false }, "")

theorem trySet_some (esc : String → String) (m : UatModel) (ui : Ui) (idx : QModelIndex)
    (e : String) (h : m.data idx = some e) :
    trySetErrorHintFromField esc m ui idx = (true, ui.setText (hintText esc e)) := by
  simp [trySetErrorHintFromField, h]

theorem trySet_none (esc : String → String) (m : UatModel) (ui : Ui) (idx : QModelIndex)
    (h : m.data idx = none) :
    trySetErrorHintFromField esc m ui idx = (false, ui) := by
  simp [trySetErrorHintFromField, h]

theorem checkColumns_eq (esc : String → String) (m : UatModel) (row : Int)
    (cols : List Nat) (ui : Ui) :
    checkColumns esc m row cols ui =
      match rowHit m row cols with
      | some e => (true, ui.setText (hintText esc e))
      | none => (false, ui) := by
  induction cols with
  | nil => simp [checkColumns, rowHit]
  | cons i rest ih =>
    cases h : m.data (m.index row (i : Int)) with
    | none => simp [checkColumns, rowHit, h, trySet_none, ih]
    | some e => simp [checkColumns, rowHit, h, trySet_some esc m ui _ e h]

theorem checkPrevious_eq (esc : String → String) (m : UatModel) (ui : Ui)
    (previous : QModelIndex) :
    checkPrevious esc m ui previous =
      Ui.shown esc ui (if previous.isValid then m.data previous else none) := by
  unfold checkPrevious
  by_cases hv : previous.isValid = true
  · cases h : m.data previous with
    | none => simp [hv, h, trySet_none, Ui.shown]
    | some e => simp [hv, h, trySet_some esc m ui _ e h, Ui.shown]
  · simp [hv, Ui.shown]

theorem checkForErrorHint_eq (esc : String → String) (m : UatModel) (ui : Ui)
    (current previous : QModelIndex) :
    checkForErrorHint esc m ui current previous =
      Ui.shown esc ui (hintChoice m current previous) := by
  unfold checkForErrorHint hintChoice
  by_cases hv : current.isValid = true
  · simp only [hv, if_true]
    cases h1 : m.data current with
    | some e => simp [trySet_some esc m ui _ e h1, Ui.shown]
    | none =>
      simp only [trySet_none esc m ui _ h1]
      by_cases hr : current.row = previous.row
      · cases h2 : m.data previous with
        | some e => simp [hr, h2, trySet_some esc m ui _ e h2, Ui.shown]
        | none =>
          simp only [hr, h2, if_true, trySet_none esc m ui _ h2, checkColumns_eq]
          cases h3 : rowHit m previous.row (List.range m.ncols) with
          | some e => simp [Ui.shown]
          | none => simp [checkPrevious_eq, h2]
      · simp only [hr, if_false, checkColumns_eq]
        cases h3 : rowHit m current.row (List.range m.ncols) with
        | some e => simp [Ui.shown]
        | none => simp [checkPrevious_eq]
  · simp [hv, checkPrevious_eq]

theorem data_valid (m : UatModel) (idx : QModelIndex) (e : String)
    (h : m.data idx = some e) : idx.isValid = true := by
  unfold UatModel.data at h
  by_cases hv : idx.isValid = true
  · exact hv
  · simp [hv] at h

theorem data_invalid (m : UatModel) (idx : QModelIndex) (h : idx.isValid = false) :
    m.data idx = none := by
  simp [UatModel.data, h]

theorem errorAnnotation_outside (m : UatModel) (row column : Int)
    (h : row < 0 ∨ m.rowCount ≤ row) : m.errorAnnotation row column = none := by
  unfold UatModel.errorAnnotation UatModel.field
  by_cases hc : 0 ≤ row ∧ 0 ≤ column
  · have hlen : m.rows.length ≤ row.toNat := by
      unfold UatModel.rowCount at h
      omega
    have hnone : m.rows[row.toNat]? = none := List.getElem?_eq_none hlen
    simp [hc, hnone]
  · simp [hc]

theorem data_index (m : UatModel) (row : Int) (i : Nat) (hi : i < m.ncols) :
    m.data (m.index row (i : Int)) = m.errorAnnotation row (i : Int) := by
  unfold UatModel.index
  by_cases hh : m.hasIndex row (i : Int) = true
  · have hr : 0 ≤ row := by
      simp [UatModel.hasIndex] at hh
      omega
    simp [hh, UatModel.data, QModelIndex.isValid, hr]
  · have hout : row < 0 ∨ m.rowCount ≤ row := by
      simp [UatModel.hasIndex, UatModel.columnCount] at hh
      omega
    simp [hh, UatModel.data, QModelIndex.isValid, QModelIndex.invalid,
      errorAnnotation_outside m row _ hout]

theorem rowHit_eq_firstError (m : UatModel) (row : Int) (cols : List Nat)
    (h : ∀ i ∈ cols, i < m.ncols) : rowHit m row cols = firstErrorInRow m row cols := by
  induction cols with
  | nil => simp [rowHit, firstErrorInRow]
  | cons i rest ih =>
    have hi : i < m.ncols := h i (List.mem_cons_self _ _)
    have hrest : ∀ j ∈ rest, j < m.ncols := fun j hj => h j (List.mem_cons_of_mem _ hj)
    simp [rowHit, firstErrorInRow, data_index m row i hi, ih hrest]

theorem rowHit_range (m : UatModel) (row : Int) :
    rowHit m row (List.range m.ncols) = firstErrorInRow m row (List.range m.ncols) :=
  rowHit_eq_firstError m row _ (fun _ hi => List.mem_range.mp hi)

theorem firstErrorInRow_outside (m : UatModel) (row : Int) (cols : List Nat)
    (h : row < 0 ∨ m.rowCount ≤ row) : firstErrorInRow m row cols = none := by
  induction cols with
  | nil => simp [firstErrorInRow]
  | cons i rest ih => simp [firstErrorInRow, errorAnnotation_outside m row _ h, ih]

theorem rowHit_some (m : UatModel) (row : Int) (cols : List Nat) (e : String)
    (h : rowHit m row cols = some e) :
    ∃ i ∈ cols, m.data (m.index row (i : Int)) = some e := by
  induction cols with
  | nil => simp [rowHit] at h
  | cons i rest ih =>
    cases hd : m.data (m.index row (i : Int)) with
    | some e1 =>
      simp [rowHit, hd] at h
      exact ⟨i, List.mem_cons_self _ _, by rw [hd, h]⟩
    | none =>
      simp [rowHit, hd] at h
      obtain ⟨j, hj, hje⟩ := ih h
      exact ⟨j, List.mem_cons_of_mem _ hj, hje⟩

theorem rowHit_none (m : UatModel) (row : Int) (cols : List Nat) :
    rowHit m row cols = none ↔ ∀ i ∈ cols, m.data (m.index row (i : Int)) = none := by
  induction cols with
  | nil => simp [rowHit]
  | cons i rest ih =>
    cases hd : m.data (m.index row (i : Int)) with
    | some e1 => simp [rowHit, hd]
    | none => simp [rowHit, hd, ih]

theorem hintText_ne_empty (esc : String → String) (e : String) : hintText esc e ≠ "" := by
  intro h
  have hl := congrArg String.length h
  simp [hintText, String.length_append] at hl
  exact absurd hl.1.1 (by decide)

theorem hintChoice_eq_spec (m : UatModel) (current previous : QModelIndex)
    (hcur : current.isValid = false → current.row = -1) :
    hintChoice m current previous = recomputeErrorHint_spec m current previous := by
  unfold hintChoice recomputeErrorHint_spec
  rw [rowHit_range]
  by_cases hv : current.isValid = true
  · cases h1 : m.data current with
    | some e => simp [hv]
    | none =>
      by_cases hr : current.row = previous.row
      · cases h2 : m.data previous with
        | some e => simp [hv, hr, h2]
        | none =>
          cases h3 : firstErrorInRow m previous.row (List.range m.ncols) with
          | some e => simp [hv, hr, h2, h3]
          | none => simp [hv, hr, h2, h3]
      · have hr2 : ¬ previous.row = current.row := fun h => hr h.symm
        cases h3 : firstErrorInRow m current.row (List.range m.ncols) with
        | some e => simp [hv, hr, hr2, h3]
        | none =>
          cases h2 : m.data previous with
          | some e => simp [hv, hr, hr2, h3, h2, data_valid m previous e h2]
          | none => simp [hv, hr, hr2, h3, h2]
  · have hv2 : current.isValid = false := by simpa using hv
    have hrow : current.row = -1 := hcur hv2
    have hfirst : firstErrorInRow m current.row (List.range m.ncols) = none :=
      firstErrorInRow_outside m _ _ (Or.inl (by omega))
    cases h2 : m.data previous with
    | some e =>
      have hpv := data_valid m previous e h2
      simp [hv2, h2, hpv, hfirst]
    | none => simp [hv2, h2, hfirst]

theorem shown_hintLabel (esc : String → String) (ui : Ui) (h : Option String) :
    (Ui.shown esc ui h).hintLabel = shownText esc h := by
  cases h <;> rfl

theorem shown_hintLog (esc : String → String) (ui : Ui) (h : Option String) :
    (Ui.shown esc ui h).hintLog = ui.hintLog ++ [shownText esc h] := by
  cases h <;> rfl

theorem shown_currentIndex (esc : String → String) (ui : Ui) (h : Option String) :
    (Ui.shown esc ui h).currentIndex = ui.currentIndex := by
  cases h <;> rfl

theorem shown_deleteToolButton (esc : String → String) (ui : Ui) (h : Option String) :
    (Ui.shown esc ui h).deleteToolButton = ui.deleteToolButton := by
  cases h <;> rfl

theorem shown_copyToolButton (esc : String → String) (ui : Ui) (h : Option String) :
    (Ui.shown esc ui h).copyToolButton = ui.copyToolButton := by
  cases h <;> rfl

theorem shownText_eq_empty (esc : String → String) (h : Option String) :
    shownText esc h = "" ↔ h = none := by
  cases h with
  | none => simp [shownText]
  | some e => simp [shownText, hintText_ne_empty]

theorem hintChoice_source (m : UatModel) (current previous : QModelIndex) (e : String)
    (h : hintChoice m current previous = some e) :
    m.data current = some e ∨ m.data previous = some e ∨
      (current.isValid = true ∧
        ∃ i : Nat, i < m.ncols ∧ m.data (m.index current.row (i : Int)) = some e) := by
  unfold hintChoice at h
  by_cases hv : current.isValid = true
  · simp only [hv, if_true] at h
    cases h1 : m.data current with
    | some e1 =>
      simp only [h1] at h
      exact Or.inl h
    | none =>
      simp only [h1] at h
      cases h2 : (if current.row = previous.row then m.data previous else none) with
      | some e2 =>
        simp only [h2] at h
        by_cases hr : current.row = previous.row
        · simp only [hr, if_true] at h2
          exact Or.inr (Or.inl (by rw [h2, h]))
        · simp [hr] at h2
      | none =>
        simp only [h2] at h
        cases h3 : rowHit m current.row (List.range m.ncols) with
        | some e3 =>
          simp only [h3] at h
          obtain ⟨i, hi, hie⟩ := rowHit_some m _ _ e3 h3
          exact Or.inr (Or.inr ⟨hv, i, List.mem_range.mp hi, by rw [hie, h]⟩)
        | none =>
          simp only [h3] at h
          by_cases hp : previous.isValid = true
          · simp only [hp, if_true] at h
            exact Or.inr (Or.inl h)
          · simp [hp] at h
  · simp only [hv] at h
    by_cases hp : previous.isValid = true
    · simp only [hp, if_true] at h
      exact Or.inr (Or.inl h)
    · simp [hp] at h

theorem hintChoice_none (m : UatModel) (current previous : QModelIndex) :
    hintChoice m current previous = none ↔
      ((previous.isValid = false ∨ m.data previous = none) ∧
        (current.isValid = true → m.data current = none ∧
          ∀ i : Nat, i < m.ncols → m.data (m.index current.row (i : Int)) = none)) := by
  have hprev : (previous.isValid = false ∨ m.data previous = none) ↔ m.data previous = none :=
    ⟨fun h => h.elim (data_invalid m previous) id, Or.inr⟩
  rw [hprev]
  unfold hintChoice
  by_cases hv : current.isValid = true
  · cases h1 : m.data current with
    | some e1 => simp [hv, h1]
    | none =>
      cases h2 : m.data previous with
      | some e2 =>
        have hpv := data_valid m previous e2 h2
        by_cases hr : current.row = previous.row
        · simp [hv, hr, h2]
        · cases h3 : rowHit m current.row (List.range m.ncols) with
          | some e3 => simp [hv, hr, h3]
          | none => simp [hv, hr, h3, hpv, h2]
      | none =>
        cases h3 : rowHit m current.row (List.range m.ncols) with
        | some e3 =>
          have hne : ¬ ∀ i : Nat, i < m.ncols →
              m.data (m.index current.row (i : Int)) = none := by
            intro hall
            have := (rowHit_none m current.row (List.range m.ncols)).mpr
              (fun i hi => hall i (List.mem_range.mp hi))
            rw [h3] at this
            cases this
          simp [hv, h3, hne]
        | none =>
          have hall := (rowHit_none m current.row (List.range m.ncols)).mp h3
          have hall2 : ∀ i : Nat, i < m.ncols →
              m.data (m.index current.row (i : Int)) = none :=
            fun i hi => hall i (List.mem_range.mpr hi)
          simp only [hv, h3, if_true, true_implies, true_and]
          simpa using hall2
  · have hv2 : current.isValid = false := by simpa using hv
    cases h2 : m.data previous with
    | some e2 => simp [hv2, h2, data_valid m previous e2 h2]
    | none => simp [hv2, h2]

/-! ## Facts about the model's operations and the view -/

theorem insertRows_rejected (m : UatModel) (pos count : Int)
    (h : (m.insertRows pos count).1 = false) : (m.insertRows pos count).2 = m := by
  unfold UatModel.insertRows at h ⊢
  split
  · rename_i hc
    rw [if_pos hc] at h
    exact Bool.noConfusion h
  · rfl

theorem insertRows_end (m : UatModel) (h : (m.insertRows m.rowCount 1).1 = true) :
    (m.insertRows m.rowCount 1).2 = { m with rows := m.rows ++ [m.fresh] } := by
  unfold UatModel.insertRows at h ⊢
  split
  · simp [UatModel.rowCount]
  · rename_i hc
    rw [if_neg hc] at h
    exact Bool.noConfusion h

theorem checkForErrorHint_currentIndex (esc : String → String) (m : UatModel) (ui : Ui)
    (current previous : QModelIndex) :
    (checkForErrorHint esc m ui current previous).currentIndex = ui.currentIndex := by
  rw [checkForErrorHint_eq, shown_currentIndex]

theorem viewCurrentChanged_currentIndex (esc : String → String) (m : UatModel) (ui : Ui)
    (current previous : QModelIndex) :
    (viewCurrentChanged esc m ui current previous).currentIndex = ui.currentIndex := by
  unfold viewCurrentChanged
  rw [checkForErrorHint_currentIndex]
  split <;> rfl

theorem setCurrentIndex_currentIndex (esc : String → String) (m : UatModel) (ui : Ui)
    (index : QModelIndex) :
    (uatTreeView_setCurrentIndex esc m ui index).currentIndex = index := by
  unfold uatTreeView_setCurrentIndex
  by_cases h : index = ui.currentIndex
  · simp [h]
  · simp [h, viewCurrentChanged_currentIndex]

theorem modelDataChanged_currentIndex (esc : String → String) (m : UatModel) (ui : Ui)
    (topLeft : QModelIndex) :
    (modelDataChanged esc m ui topLeft).currentIndex = ui.currentIndex :=
  checkForErrorHint_currentIndex esc m ui topLeft QModelIndex.invalid

theorem addRecord_accepted (esc : String → String) (s : UatFrame) (u : EpanUat)
    (m : UatModel) (copy : Bool) (hu : s.uat_ = some u) (hm : s.uat_model_ = some m)
    (hsel : copy = true → s.ui.currentIndex.isValid = true)
    (hacc : (m.insertRows m.rowCount 1).1 = true) :
    ∃ s' : UatFrame, addRecord esc s copy = some s' ∧
      s'.uat_ = s.uat_ ∧ s'.events = s.events ∧
      s'.uat_model_ = some
        (if copy then
          UatModel.copyRow { m with rows := m.rows ++ [m.fresh] }
            (UatModel.index { m with rows := m.rows ++ [m.fresh] } m.rowCount 0).row
            s.ui.currentIndex.row
         else { m with rows := m.rows ++ [m.fresh] }) ∧
      s'.ui.currentIndex = UatModel.index { m with rows := m.rows ++ [m.fresh] } m.rowCount 0 := by
  have hrc : UatModel.rowCount { m with rows := m.rows ++ [m.fresh] } - 1 = m.rowCount := by
    simp [UatModel.rowCount]
  have hguard : (copy && !s.ui.currentIndex.isValid) = false := by
    cases copy with
    | false => rfl
    | true => simp [hsel rfl]
  unfold addRecord
  simp only [hu, hm, hguard, hacc, insertRows_end m hacc, hrc]
  refine ⟨_, rfl, rfl, rfl, ?_, ?_⟩
  · cases copy <;> simp
  · simp [modelDataChanged_currentIndex, setCurrentIndex_currentIndex]

theorem index_new_row (m : UatModel) (h : 0 < m.columnCount) :
    UatModel.index { m with rows := m.rows ++ [m.fresh] } m.rowCount 0 =
      ⟨m.rowCount, 0, true⟩ := by
  have hh : UatModel.hasIndex { m with rows := m.rows ++ [m.fresh] } m.rowCount 0 = true := by
    simp only [UatModel.columnCount] at h
    simp [UatModel.hasIndex, UatModel.rowCount, UatModel.columnCount]
    omega
  simp [UatModel.index, hh]

theorem index_new_row_no_columns (m : UatModel) (h : m.columnCount ≤ 0) :
    UatModel.index { m with rows := m.rows ++ [m.fresh] } m.rowCount 0 =
      QModelIndex.invalid := by
  have hh : UatModel.hasIndex { m with rows := m.rows ++ [m.fresh] } m.rowCount 0 = false := by
    simp only [UatModel.columnCount] at h
    simp [UatModel.hasIndex, UatModel.rowCount, UatModel.columnCount]
    omega
  simp [UatModel.index, hh]

theorem value_old_row (m : UatModel) (x : Row) (r c : Int) (h : r < m.rowCount) :
    UatModel.value { m with rows := m.rows ++ [x] } r c = m.value r c := by
  unfold UatModel.value UatModel.field
  by_cases hc : 0 ≤ r ∧ 0 ≤ c
  · have hlt : r.toNat < m.rows.length := by
      unfold UatModel.rowCount at h
      omega
    simp [hc, List.getElem?_append_left hlt]
  · simp [hc]

theorem value_last_row (m : UatModel) (x : Row) (r c : Int)
    (hx : m.rows.get? r.toNat = some x) (hr : 0 ≤ r) :
    UatModel.value { m with rows := m.rows ++ [x] } m.rowCount c = m.value r c := by
  unfold UatModel.value UatModel.field
  have hlen : (0 : Int) ≤ m.rowCount := by simp [UatModel.rowCount]
  have hx2 : m.rows[r.toNat]? = some x := by simpa using hx
  by_cases hc : 0 ≤ c
  · simp [hc, hr, hlen, UatModel.rowCount, hx2]
  · simp [hc]

theorem copyRow_new_row (m : UatModel) (r : Int) (hr : 0 ≤ r) (hlt : r < m.rowCount) :
    ∃ x : Row, m.rows.get? r.toNat = some x ∧
      UatModel.copyRow { m with rows := m.rows ++ [m.fresh] } m.rowCount r =
        { m with rows := m.rows ++ [x] } := by
  have hlt2 : r.toNat < m.rows.length := by
    unfold UatModel.rowCount at hlt
    omega
  refine ⟨m.rows[r.toNat], by simp [List.getElem?_eq_getElem hlt2], ?_⟩
  have hguard : 0 ≤ r ∧ r < UatModel.rowCount { m with rows := m.rows ++ [m.fresh] } ∧
      0 ≤ m.rowCount ∧ m.rowCount < UatModel.rowCount { m with rows := m.rows ++ [m.fresh] } := by
    simp only [UatModel.rowCount] at hlt ⊢
    simp
    omega
  unfold UatModel.copyRow
  rw [if_pos hguard]
  have hget : (m.rows ++ [m.fresh]).get? r.toNat = some m.rows[r.toNat] := by
    simp [List.getElem?_append_left hlt2, List.getElem?_eq_getElem hlt2]
  simp only [hget]
  simp [UatModel.rowCount]

theorem copyRow_rowCount (m : UatModel) (dst src : Int) :
    (m.copyRow dst src).rowCount = m.rowCount := by
  unfold UatModel.copyRow
  split
  · split
    · simp [UatModel.rowCount]
    · rfl
  · rfl

theorem setData_other_row (validate : Nat → String → Option String) (m : UatModel)
    (r c : Int) (v : String) (r2 c2 : Int) (hne : r ≠ r2) :
    (m.setData validate r c v).value r2 c2 = m.value r2 c2 := by
  unfold UatModel.setData
  split
  · rename_i hrc
    split
    · split
      · unfold UatModel.value UatModel.field
        by_cases h2 : 0 ≤ r2 ∧ 0 ≤ c2
        · have hnat : r.toNat ≠ r2.toNat := by omega
          simp [h2, List.getElem?_set_ne hnat]
        · simp [h2]
      · rfl
    · rfl
  · rfl

theorem removeRows_only_row (m : UatModel) (h1 : m.rowCount = 1)
    (hacc : (m.removeRows 0 1).1 = true) : ((m.removeRows 0 1).2).rowCount = 0 := by
  unfold UatModel.removeRows at hacc ⊢
  split
  · have hlen : m.rows.length = 1 := by
      unfold UatModel.rowCount at h1
      omega
    simp [UatModel.rowCount, hlen]
  · rename_i hc
    rw [if_neg hc] at hacc
    exact Bool.noConfusion hacc

theorem modelRowsRemoved_currentIndex (esc : String → String) (m : UatModel) (ui : Ui) :
    (modelRowsRemoved esc m ui).currentIndex = ui.currentIndex :=
  checkForErrorHint_currentIndex esc m ui ui.currentIndex QModelIndex.invalid

/-! ## The claims about the error hint -/

/-- C1: for every model and every pair (current, previous), each valid or
invalid, `checkForErrorHint` writes the hint the specification's flat
first-match-wins priority list chooses (`recomputeErrorHint_spec`): the label
holds that annotation, formatted, or the empty text when the list chooses none.
An invalid index carries no annotation (so `UatModel.data` has it); an invalid
`current` carries row `-1` (the hypothesis); nothing is asked of `previous`. -/
theorem checkForErrorHint_follows_priority_list (esc : String → String) (m : UatModel)
    (ui : Ui) (current previous : QModelIndex)
    (hcur : current.isValid = false → current.row = -1) :
    (checkForErrorHint esc m ui current previous).hintLabel =
        shownText esc (recomputeErrorHint_spec m current previous) ∧
      checkForErrorHint esc m ui current previous =
        Ui.shown esc ui (recomputeErrorHint_spec m current previous) := by
  rw [checkForErrorHint_eq, hintChoice_eq_spec m current previous hcur]
  exact ⟨shown_hintLabel _ _ _, rfl⟩

/-- Witness for C1: on the sample table, with nothing current and the flagged
field `(1, 1)` previous, the hint is that field's error, as the list says. -/
theorem checkForErrorHint_follows_priority_list_witness :
    (QModelIndex.invalid.isValid = false → QModelIndex.invalid.row = -1) ∧
      (checkForErrorHint id sampleModel sampleUi QModelIndex.invalid ⟨1, 1, true⟩).hintLabel =
        shownText id (recomputeErrorHint_spec sampleModel QModelIndex.invalid ⟨1, 1, true⟩) ∧
      shownText id (recomputeErrorHint_spec sampleModel QModelIndex.invalid ⟨1, 1, true⟩) =
        "<small><i>bad y</i></small>" :=
  ⟨fun _ => rfl,
   (checkForErrorHint_follows_priority_list id sampleModel sampleUi QModelIndex.invalid
      ⟨1, 1, true⟩ (fun _ => rfl)).1,
   by decide⟩

/-- C6: `checkForErrorHint` is total and deterministic.  For every model (any
number of columns) and every pair (current, previous) there is one text `t`,
either empty or the formatted annotation of one field, such that from any
widgets the call writes the hint label exactly once, with `t`; so the hint does
not depend on what the label showed before. -/
theorem checkForErrorHint_total_deterministic (esc : String → String) (m : UatModel)
    (current previous : QModelIndex) :
    ∃ t : String,
      (t = "" ∨ ∃ (idx : QModelIndex) (e : String),
        idx.isValid = true ∧ m.data idx = some e ∧ t = hintText esc e) ∧
      ∀ ui : Ui,
        (checkForErrorHint esc m ui current previous).hintLog = ui.hintLog ++ [t] ∧
        (checkForErrorHint esc m ui current previous).hintLabel = t := by
  refine ⟨shownText esc (hintChoice m current previous), ?_, ?_⟩
  · cases h : hintChoice m current previous with
    | none => exact Or.inl rfl
    | some e =>
      right
      rcases hintChoice_source m current previous e h with h1 | h1 | ⟨_, i, _, h1⟩
      · exact ⟨current, e, data_valid m _ e h1, h1, rfl⟩
      · exact ⟨previous, e, data_valid m _ e h1, h1, rfl⟩
      · exact ⟨m.index current.row (i : Int), e, data_valid m _ e h1, h1, rfl⟩
  · intro ui
    rw [checkForErrorHint_eq]
    exact ⟨shown_hintLog _ _ _, shown_hintLabel _ _ _⟩

/-- C8: after `viewCurrentChanged(current, previous)` the delete and the copy
action are both enabled when `current` is valid and both disabled otherwise,
whatever `previous` and their state before; the hint is the one
`checkForErrorHint` computes from `(current, previous)`, and the selection is
left as it was. -/
theorem viewCurrentChanged_actions_and_hint (esc : String → String) (m : UatModel)
    (ui : Ui) (current previous : QModelIndex) :
    (viewCurrentChanged esc m ui current previous).deleteToolButton = current.isValid ∧
      (viewCurrentChanged esc m ui current previous).copyToolButton = current.isValid ∧
      (viewCurrentChanged esc m ui current previous).hintLabel =
        (checkForErrorHint esc m ui current previous).hintLabel ∧
      (viewCurrentChanged esc m ui current previous).currentIndex = ui.currentIndex := by
  unfold viewCurrentChanged
  simp only [checkForErrorHint_eq, shown_hintLabel, shown_deleteToolButton,
    shown_copyToolButton, shown_currentIndex]
  by_cases hv : current.isValid = true
  · simp [hv]
  · have hv2 : current.isValid = false := by simpa using hv
    simp [hv2]

/-- C10: `checkForErrorHint` leaves the hint cleared exactly when `previous` is
invalid or has no error annotation and, if `current` is valid, neither
`current` nor any column of its row has one.  A hint that is not empty is the
formatted annotation of `current`, of `previous`, or of a field of
`current`'s row. -/
theorem checkForErrorHint_cleared_iff (esc : String → String) (m : UatModel) (ui : Ui)
    (current previous : QModelIndex) :
    ((checkForErrorHint esc m ui current previous).hintLabel = "" ↔
        ((previous.isValid = false ∨ m.data previous = none) ∧
          (current.isValid = true → m.data current = none ∧
            ∀ i : Nat, i < m.ncols → m.data (m.index current.row (i : Int)) = none))) ∧
      ((checkForErrorHint esc m ui current previous).hintLabel ≠ "" →
        ∃ e : String,
          (checkForErrorHint esc m ui current previous).hintLabel = hintText esc e ∧
          (m.data current = some e ∨ m.data previous = some e ∨
            (current.isValid = true ∧
              ∃ i : Nat, i < m.ncols ∧ m.data (m.index current.row (i : Int)) = some e))) := by
  rw [checkForErrorHint_eq, shown_hintLabel]
  refine ⟨?_, ?_⟩
  · rw [shownText_eq_empty, hintChoice_none]
  · intro hne
    cases h : hintChoice m current previous with
    | none => simp [h, shownText] at hne
    | some e => exact ⟨e, rfl, hintChoice_source m current previous e h⟩

/-- Witness for C10: on the sample table, with `(0, 0)` current and the flagged
field `(1, 1)` previous, the hint is not empty, and it is the error of the
field `(0, 2)` of the current row. -/
theorem checkForErrorHint_cleared_iff_witness :
    (checkForErrorHint id sampleModel sampleUi ⟨0, 0, true⟩ ⟨1, 1, true⟩).hintLabel ≠ "" ∧
      ∃ e : String,
        (checkForErrorHint id sampleModel sampleUi ⟨0, 0, true⟩ ⟨1, 1, true⟩).hintLabel =
            hintText id e ∧
          (sampleModel.data ⟨0, 0, true⟩ = some e ∨ sampleModel.data ⟨1, 1, true⟩ = some e ∨
            ((⟨0, 0, true⟩ : QModelIndex).isValid = true ∧
              ∃ i : Nat, i < sampleModel.ncols ∧
                sampleModel.data (sampleModel.index (0 : Int) (i : Int)) = some e)) :=
  ⟨by decide,
   (checkForErrorHint_cleared_iff id sampleModel sampleUi ⟨0, 0, true⟩ ⟨1, 1, true⟩).2
     (by decide)⟩

/-! ## The claims about the row actions -/

/-- C2: for every table with a UAT attached whose model accepts the insert,
`addRecord` without copying (the New action), whatever the selection before,
appends one row at the end (the old rows stay, the new one has index = old
`rowCount`, and `rowCount` grows by exactly 1) and sets the selection to the
model's index of column 0 of that new row; in a table that has a column 0 this
is the valid index `(old rowCount, 0)`. -/
theorem addRecord_new_appends_and_selects (esc : String → String) (s : UatFrame)
    (u : EpanUat) (m : UatModel) (hu : s.uat_ = some u) (hm : s.uat_model_ = some m)
    (hacc : (m.insertRows m.rowCount 1).1 = true) :
    ∃ (s' : UatFrame) (m' : UatModel),
      addRecord esc s false = some s' ∧ on_newToolButton_clicked esc s = some s' ∧
      s'.uat_model_ = some m' ∧
      m'.rowCount = m.rowCount + 1 ∧ m'.rows = m.rows ++ [m.fresh] ∧
      s'.ui.currentIndex = m'.index m.rowCount 0 ∧
      (0 < m.columnCount →
        s'.ui.currentIndex = ⟨m.rowCount, 0, true⟩ ∧ s'.ui.currentIndex.isValid = true) := by
  obtain ⟨s', h1, _, _, h4, h5⟩ :=
    addRecord_accepted esc s u m false hu hm (fun h => Bool.noConfusion h) hacc
  refine ⟨s', { m with rows := m.rows ++ [m.fresh] }, h1, h1, ?_, ?_, rfl, h5, ?_⟩
  · simpa using h4
  · simp [UatModel.rowCount]
  · intro hcol
    have hlen : (0 : Int) ≤ m.rowCount := by simp [UatModel.rowCount]
    rw [index_new_row m hcol] at h5
    rw [h5]
    exact ⟨rfl, by simp [QModelIndex.isValid, hlen]⟩

/-- Witness for C2: the New action on the sample table, which has two rows and
three columns and accepts the insert; the selection becomes the field
`(2, 0)`. -/
theorem addRecord_new_appends_and_selects_witness :
    sampleFrame.uat_ = some sampleUat ∧ sampleFrame.uat_model_ = some sampleModel ∧
      (sampleModel.insertRows sampleModel.rowCount 1).1 = true ∧
      ∃ (s' : UatFrame) (m' : UatModel),
        addRecord id sampleFrame false = some s' ∧
        s'.uat_model_ = some m' ∧
        m'.rowCount = 3 ∧
        m'.rows = sampleModel.rows ++ [sampleModel.fresh] ∧
        s'.ui.currentIndex = ⟨2, 0, true⟩ ∧
        s'.ui.currentIndex.isValid = true := by
  refine ⟨rfl, rfl, by decide, ?_⟩
  obtain ⟨s', m', h1, _, h3, h4, h5, _, h7⟩ :=
    addRecord_new_appends_and_selects id sampleFrame sampleUat sampleModel rfl rfl (by decide)
  exact ⟨s', m', h1, h3, h4, h5, (h7 (by decide)).1, (h7 (by decide)).2⟩

/-- C3: for every table with a valid current selection in an existing row r and
a model that accepts the insert, `addRecord(true)` appends one row whose value
in every column is the value row r held at the call; the rows that were there,
row r among them, keep their values; and an edit of row r made afterwards
leaves the values of the clone as they are. -/
theorem addRecord_copy_clones_row (esc : String → String) (s : UatFrame) (u : EpanUat)
    (m : UatModel) (hu : s.uat_ = some u) (hm : s.uat_model_ = some m)
    (hv : s.ui.currentIndex.isValid = true) (hrow : s.ui.currentIndex.row < m.rowCount)
    (hacc : (m.insertRows m.rowCount 1).1 = true) :
    ∃ (s' : UatFrame) (m' : UatModel),
      addRecord esc s true = some s' ∧ on_copyToolButton_clicked esc s = some s' ∧
      s'.uat_model_ = some m' ∧
      m'.rowCount = m.rowCount + 1 ∧
      (∀ c : Int, 0 ≤ c → c < m.columnCount →
        m'.value m.rowCount c = m.value s.ui.currentIndex.row c) ∧
      (∀ r c : Int, r < m.rowCount → m'.value r c = m.value r c) ∧
      (∀ (validate : Nat → String → Option String) (c : Int) (v : String) (c2 : Int),
        (m'.setData validate s.ui.currentIndex.row c v).value m.rowCount c2 =
          m'.value m.rowCount c2) := by
  obtain ⟨s', h1, _, _, h4, _⟩ := addRecord_accepted esc s u m true hu hm (fun _ => hv) hacc
  have hr0 : 0 ≤ s.ui.currentIndex.row := by
    simp [QModelIndex.isValid] at hv
    exact hv.1.1
  have hne : s.ui.currentIndex.row ≠ m.rowCount := by omega
  simp only [if_true] at h4
  refine ⟨s', _, h1, h1, h4, ?_, ?_, ?_, ?_⟩
  · rw [copyRow_rowCount]
    simp [UatModel.rowCount]
  · intro c hc0 hc
    have hcol : 0 < m.columnCount := by omega
    rw [index_new_row m hcol]
    obtain ⟨x, hx, hcopy⟩ := copyRow_new_row m s.ui.currentIndex.row hr0 hrow
    simp only [hcopy]
    exact value_last_row m x _ c hx hr0
  · intro r c hr
    by_cases hcol : 0 < m.columnCount
    · rw [index_new_row m hcol]
      obtain ⟨x, _, hcopy⟩ := copyRow_new_row m s.ui.currentIndex.row hr0 hrow
      simp only [hcopy]
      exact value_old_row m x r c hr
    · rw [index_new_row_no_columns m (by omega)]
      have hguard : UatModel.copyRow { m with rows := m.rows ++ [m.fresh] }
          QModelIndex.invalid.row s.ui.currentIndex.row =
          { m with rows := m.rows ++ [m.fresh] } := by
        simp [UatModel.copyRow, QModelIndex.invalid]
      rw [hguard]
      exact value_old_row m m.fresh r c hr
  · intro validate c v c2
    exact setData_other_row validate _ _ c v _ c2 hne

/-- Witness for C3: the Copy action on the sample table with the field `(1, 1)`
selected. -/
theorem addRecord_copy_clones_row_witness :
    ∃ (s' : UatFrame) (m' : UatModel),
      addRecord id selectedFrame true = some s' ∧
      on_copyToolButton_clicked id selectedFrame = some s' ∧
      s'.uat_model_ = some m' ∧
      m'.rowCount = sampleModel.rowCount + 1 ∧
      (∀ c : Int, 0 ≤ c → c < sampleModel.columnCount →
        m'.value sampleModel.rowCount c = sampleModel.value selectedFrame.ui.currentIndex.row c) ∧
      (∀ r c : Int, r < sampleModel.rowCount → m'.value r c = sampleModel.value r c) ∧
      (∀ (validate : Nat → String → Option String) (c : Int) (v : String) (c2 : Int),
        (m'.setData validate selectedFrame.ui.currentIndex.row c v).value
            sampleModel.rowCount c2 =
          m'.value sampleModel.rowCount c2) :=
  addRecord_copy_clones_row id selectedFrame sampleUat sampleModel rfl rfl
    (by decide) (by decide) (by decide)

/-- C4, as the code has it: when a clone is requested and there is no valid
current selection, `addRecord` returns at its guard and the frame is what it
was: no row is appended and the model, the selection and the hint are
untouched.  Without a clone request, an accepted insert appends the model's
fresh row and copies nothing into it. -/
theorem addRecord_copy_without_selection (esc : String → String) (s : UatFrame) :
    (s.ui.currentIndex.isValid = false → addRecord esc s true = some s) ∧
      (∀ (u : EpanUat) (m : UatModel), s.uat_ = some u → s.uat_model_ = some m →
        (m.insertRows m.rowCount 1).1 = true →
        ∃ s' : UatFrame, addRecord esc s false = some s' ∧
          s'.uat_model_ = some { m with rows := m.rows ++ [m.fresh] }) := by
  refine ⟨?_, ?_⟩
  · intro hinv
    unfold addRecord
    cases hu : s.uat_ with
    | none => rfl
    | some u => simp [hinv]
  · intro u m hu hm hacc
    obtain ⟨s', h1, _, _, h4, _⟩ :=
      addRecord_accepted esc s u m false hu hm (fun h => Bool.noConfusion h) hacc
    exact ⟨s', h1, by simpa using h4⟩

/-- Witness for C4 as amended: a clone requested on the sample frame, where
nothing is selected, leaves the frame as it was. -/
theorem addRecord_copy_without_selection_witness :
    sampleFrame.ui.currentIndex.isValid = false ∧
      addRecord id sampleFrame true = some sampleFrame :=
  ⟨by decide, (addRecord_copy_without_selection id sampleFrame).1 (by decide)⟩

/-- C4 as stated fails: on the sample frame a UAT is attached, nothing is
selected and the model would accept an insert, yet `addRecord(true)` appends no
row: no result of it has one row more. -/
theorem addRecord_clone_unselected_counterexample :
    sampleFrame.uat_ = some sampleUat ∧
      sampleFrame.ui.currentIndex.isValid = false ∧
      (sampleModel.insertRows sampleModel.rowCount 1).1 = true ∧
      (addRecord id sampleFrame true).map (fun s => s.uat_model_.map UatModel.rowCount) =
        some (some sampleModel.rowCount) ∧
      (addRecord id sampleFrame true).map (fun s => s.uat_model_.map UatModel.rowCount) ≠
        some (some (sampleModel.rowCount + 1)) := by
  decide

/-- C7: when the model rejects the insert, and likewise when no UAT is attached,
`addRecord` returns normally and the widgets (the selection, the hint, the
buttons), the model (its rows and so `rowCount`; no row is copied) and the UAT
are exactly what they were before the call. -/
theorem addRecord_rejected_changes_nothing (esc : String → String) (s : UatFrame)
    (copy : Bool)
    (h : s.uat_ = none ∨
      ∃ m : UatModel, s.uat_model_ = some m ∧ (m.insertRows m.rowCount 1).1 = false) :
    ∃ s' : UatFrame, addRecord esc s copy = some s' ∧
      s'.ui = s.ui ∧ s'.uat_model_ = s.uat_model_ ∧ s'.uat_ = s.uat_ := by
  unfold addRecord
  cases hu : s.uat_ with
  | none => exact ⟨s, rfl, rfl, rfl, hu⟩
  | some u =>
    rcases h with h | ⟨m, hm, hrej⟩
    · rw [hu] at h
      cases h
    · by_cases hg : (copy && !s.ui.currentIndex.isValid) = true
      · exact ⟨s, by simp [hg], rfl, rfl, hu⟩
      · have hg2 : (copy && !s.ui.currentIndex.isValid) = false := by simpa using hg
        simp only [hg2, hm, hrej, insertRows_rejected m _ _ hrej]
        exact ⟨_, rfl, rfl, rfl, rfl⟩

/-- Witness for C7: the New action on a frame whose model accepts no insert. -/
theorem addRecord_rejected_changes_nothing_witness :
    (fullFrame.uat_ = none ∨
      ∃ m : UatModel, fullFrame.uat_model_ = some m ∧
        (m.insertRows m.rowCount 1).1 = false) ∧
      ∃ s' : UatFrame, addRecord id fullFrame false = some s' ∧
        s'.ui = fullFrame.ui ∧ s'.uat_model_ = fullFrame.uat_model_ ∧
        s'.uat_ = fullFrame.uat_ :=
  ⟨Or.inr ⟨fullModel, rfl, by decide⟩,
   addRecord_rejected_changes_nothing id fullFrame false
     (Or.inr ⟨fullModel, rfl, by decide⟩)⟩

/-- C9: for every table with exactly one row, that row selected, and a model
that accepts the removal, the delete action leaves `rowCount == 0` and the
selection invalid. -/
theorem delete_last_row_empties_table (esc : String → String) (s : UatFrame)
    (m : UatModel) (hm : s.uat_model_ = some m) (hone : m.rowCount = 1)
    (hv : s.ui.currentIndex.isValid = true) (hrow : s.ui.currentIndex.row < m.rowCount)
    (hacc : (m.removeRows s.ui.currentIndex.row 1).1 = true) :
    ∃ m' : UatModel, (on_deleteToolButton_clicked esc s).uat_model_ = some m' ∧
      m'.rowCount = 0 ∧
      (on_deleteToolButton_clicked esc s).ui.currentIndex.isValid = false := by
  have hr0 : s.ui.currentIndex.row = 0 := by
    simp [QModelIndex.isValid] at hv
    omega
  rw [hr0] at hacc
  have hcount := removeRows_only_row m hone hacc
  unfold on_deleteToolButton_clicked
  simp only [hm, hv, hr0, hacc, if_true, Bool.not_true, Bool.false_eq_true, if_false]
  refine ⟨(m.removeRows 0 1).2, rfl, hcount, ?_⟩
  have hcond : (s.ui.currentIndex.isValid &&
      decide (((m.removeRows 0 1).2).rowCount ≤ s.ui.currentIndex.row)) = true := by
    simp [hv, hr0, hcount]
  rw [modelRowsRemoved_currentIndex]
  unfold uatTreeView_rowsRemoved
  rw [if_pos hcond, setCurrentIndex_currentIndex]
  rfl

/-- Witness for C9: the delete action on a frame whose table has one row, with
that row's field selected. -/
theorem delete_last_row_empties_table_witness :
    ∃ m' : UatModel, (on_deleteToolButton_clicked id fullFrame).uat_model_ = some m' ∧
      m'.rowCount = 0 ∧
      (on_deleteToolButton_clicked id fullFrame).ui.currentIndex.isValid = false :=
  delete_last_row_empties_table id fullFrame fullModel rfl (by decide) (by decide)
    (by decide) (by decide)

/-! ## The claim about saving -/

/-- C5, as the code has it: `acceptChanges` emits `FilterExpressionsChanged`
exactly once, as the last thing it does, whenever a UAT is attached and the
table had pending changes, whether the save succeeded or failed; a failed save
is reported first and the post-update callback, when one is registered, and the
notification still follow.  It issues nothing when there is no UAT or when
there were no pending changes. -/
theorem acceptChanges_emits_once_when_changed
    (uat_save : EpanUat → Bool × EpanUat × String) (s : UatFrame) :
    (∀ u : EpanUat, s.uat_ = some u → u.changed = true →
        ∃ pre : List Event,
          (acceptChanges uat_save s).events =
            s.events ++ pre ++ [Event.FilterExpressionsChanged] ∧
          Event.FilterExpressionsChanged ∉ pre ∧
          ((uat_save u).1 = false → ∃ msg : String, Event.report_failure msg ∈ pre) ∧
          ((uat_save u).2.1.post_update_cb = true → Event.post_update_cb ∈ pre)) ∧
      (s.uat_ = none → acceptChanges uat_save s = s) ∧
      (∀ u : EpanUat, s.uat_ = some u → u.changed = false → acceptChanges uat_save s = s) := by
  refine ⟨?_, ?_, ?_⟩
  · intro u hu hch
    unfold acceptChanges
    simp only [hu, hch, if_true]
    refine ⟨(if !(uat_save u).1 then
        [Event.report_failure
          ("Error while saving " ++ (uat_save u).2.1.name ++ ": " ++ (uat_save u).2.2)]
        else []) ++
      (if (uat_save u).2.1.post_update_cb then [Event.post_update_cb] else []), ?_, ?_, ?_, ?_⟩
    · simp [List.append_assoc]
    · cases (uat_save u).1 <;> cases (uat_save u).2.1.post_update_cb <;> simp
    · intro hf
      exact ⟨"Error while saving " ++ (uat_save u).2.1.name ++ ": " ++ (uat_save u).2.2,
        by simp [hf]⟩
    · intro hcb
      simp [hcb]
  · intro hu
    unfold acceptChanges
    simp [hu]
  · intro u hu hch
    unfold acceptChanges
    simp [hu, hch]

/-- Witness for C5 as amended: a working save on the sample frame, whose table
has pending changes and a post-update callback. -/
theorem acceptChanges_emits_once_when_changed_witness :
    sampleFrame.uat_ = some sampleUat ∧ sampleUat.changed = true ∧
      ∃ pre : List Event,
        (acceptChanges workingSave sampleFrame).events =
          sampleFrame.events ++ pre ++ [Event.FilterExpressionsChanged] ∧
        Event.FilterExpressionsChanged ∉ pre ∧
        ((workingSave sampleUat).1 = false → ∃ msg : String, Event.report_failure msg ∈ pre) ∧
        ((workingSave sampleUat).2.1.post_update_cb = true → Event.post_update_cb ∈ pre) :=
  ⟨rfl, rfl, (acceptChanges_emits_once_when_changed workingSave sampleFrame).1 sampleUat rfl rfl⟩

/-- C5 as stated fails: with pending changes and a save that fails,
`acceptChanges` reports the failure and then still runs the post-update
callback and emits `FilterExpressionsChanged`. -/
theorem acceptChanges_failed_save_counterexample :
    (failingSave sampleUat).1 = false ∧
      (acceptChanges failingSave sampleFrame).events =
        [Event.report_failure "Error while saving tbl: disk full",
         Event.post_update_cb, Event.FilterExpressionsChanged] ∧
      (acceptChanges failingSave sampleFrame).events.count Event.FilterExpressionsChanged ≠ 0 := by
  decide

end UatFrame

end Wireshark
